import Mathlib

/-!
Shallow embedding of the obsidian-tasks-kanban core (grouping/ordering adapter,
status mutation engine, status mapper, refresh debounce) from the TypeScript
sources, together with theorems settling the specification claims.

Text is modelled as `List Char` (one JS string = one list of code points;
lines are produced by splitting on the newline character exactly as
`content.split('\n')` does).  The ambient status configuration consulted via
`getSettings()` is passed explicitly as a `List StatusDescriptor` parameter;
the empty list models the "no configuration available" fallback path.
-/

namespace TasksKanban

/-- Character class of the JS RegExp `\s` escape (whitespace), covering the
ASCII whitespace characters and the Unicode space separators that JS includes. -/
def jsWhitespace (c : Char) : Bool :=
  c = ' ' || c = '\t' || c = '\n' || c = '\x0b' || c = '\x0c' || c = '\r' ||
  c = Char.ofNat 0xa0 || c = Char.ofNat 0x1680 ||
  (Char.ofNat 0x2000 ≤ c && c ≤ Char.ofNat 0x200a) ||
  c = Char.ofNat 0x2028 || c = Char.ofNat 0x2029 || c = Char.ofNat 0x202f ||
  c = Char.ofNat 0x205f || c = Char.ofNat 0x3000 || c = Char.ofNat 0xfeff

/-- JS line terminators: the characters NOT matched by `.` in a RegExp without
the `s` flag. -/
def lineTerminator (c : Char) : Bool :=
  c = '\n' || c = '\r' || c = Char.ofNat 0x2028 || c = Char.ofNat 0x2029

/-- Matching of one line against the rewrite RegExp
`/^(\s*-\s*\[)[^\]]*(\]\s*.*)$/` of `updateTaskLineStatus`
(src/src/integration/TasksIntegration.ts line 231).  On success the result is
the triple (capture group 1, the `[^\]]*` middle, capture group 2): the line
is their concatenation.  The greedy `\s*` runs are maximal runs (backtracking
cannot help since whitespace never equals `-` or `[`), the `[^\]]*` middle
stops at the first `]` after the `[`, and the trailing `\s*.*$` succeeds
exactly when, after stripping leading whitespace from the remainder behind
that `]`, no line terminator is left for `.*` to choke on. -/
def matchTaskLine (line : List Char) : Option (List Char × List Char × List Char) :=
  let w1 := line.takeWhile jsWhitespace
  match line.dropWhile jsWhitespace with
  | '-' :: r2 =>
    let w2 := r2.takeWhile jsWhitespace
    match r2.dropWhile jsWhitespace with
    | '[' :: r4 =>
      let mid := r4.takeWhile (fun c => c != ']')
      match r4.dropWhile (fun c => c != ']') with
      | ']' :: tail =>
        if ((tail.dropWhile jsWhitespace).all (fun c => !lineTerminator c)) then
          some (w1 ++ '-' :: w2 ++ ['['], mid, ']' :: tail)
        else none
      | _ => none
    | _ => none
  | _ => none

/-- `updateTaskLineStatus` (src/src/integration/TasksIntegration.ts lines
229-241): replace the status symbol between the brackets, or return the line
unchanged when the RegExp does not match. -/
def updateTaskLineStatus (line newStatusSymbol : List Char) : List Char :=
  match matchTaskLine line with
  | some (g1, _, g2) => g1 ++ newStatusSymbol ++ g2
  | none => line

/-- Helper for the test RegExp `\[.*\]` tail: is there a `]` occurring before
any line terminator? (`.` cannot cross a line terminator, `.` may match `]`,
and greedy backtracking tries every `]` position.) -/
def rbracketBeforeLineTerminator : List Char → Bool
  | [] => false
  | c :: cs =>
    if c = ']' then true
    else if lineTerminator c then false
    else rbracketBeforeLineTerminator cs

/-- The unanchored search test `line.match(/^\s*-\s*\[.*\]/)`
(src/src/integration/TasksIntegration.ts line 192) used while scanning for
the task's line. -/
def lineMatchesTaskPattern (line : List Char) : Bool :=
  match line.dropWhile jsWhitespace with
  | '-' :: r2 =>
    match r2.dropWhile jsWhitespace with
    | '[' :: r4 => rbracketBeforeLineTerminator r4
    | _ => false
  | _ => false

/-- JS `hay.includes(needle)`: substring containment. -/
def jsIncludes (needle : List Char) : List Char → Bool
  | [] => needle.isEmpty
  | c :: cs => needle.isPrefixOf (c :: cs) || jsIncludes needle cs

/-- The per-line test of the search loop:
`line.includes(taskDescription) && line.match(/^\s*-\s*\[.*\]/)`. -/
def taskLineHit (desc line : List Char) : Bool :=
  jsIncludes desc line && lineMatchesTaskPattern line

/-- The search loop of `updateTaskStatus` (lines 190-197): first index whose
line passes `taskLineHit`, scanning from index `i` upward. -/
def findTaskLine (desc : List Char) : List (List Char) → Nat → Option Nat
  | [], _ => none
  | l :: ls, i => if taskLineHit desc l then some i else findTaskLine desc ls (i + 1)

/-- One status descriptor of the external Tasks-plugin status configuration
(`statusSettings.coreStatuses` / `customStatuses` entries with their `symbol`,
`name` and `type` fields). -/
structure StatusDescriptor where
  symbol : String
  name : String
  type : String
deriving DecidableEq, Repr

/-- `getStatusSymbol` (src/src/TasksKanbanSettings.ts lines 372-403, second
document; the copy in src/src/integration/TasksIntegration.ts lines 243-256
is the `statuses = []` special case): consult the configured statuses for a
match on type, name or symbol; otherwise fall back to the fixed four-entry
table, with `' '` for any unknown status type. -/
def getStatusSymbol (statuses : List StatusDescriptor) (statusType : String) : String :=
  match statuses.find? (fun s => s.type == statusType || s.name == statusType || s.symbol == statusType) with
  | some s => s.symbol
  | none =>
    if statusType = "TODO" then " "
    else if statusType = "IN_PROGRESS" then "/"
    else if statusType = "DONE" then "x"
    else if statusType = "CANCELLED" then "-"
    else " "

/-- ASCII lowercasing of one character, the fragment of JS
`String.prototype.toLowerCase` relevant to the status keys involved. -/
def asciiLower (c : Char) : Char :=
  if 'A' ≤ c && c ≤ 'Z' then Char.ofNat (c.toNat + 32) else c

/-- ASCII fragment of `status.toLowerCase()`. -/
def toLowerCase (s : String) : String :=
  String.mk (s.data.map asciiLower)

/-- `mapStatusToType` (src/src/integration/TasksIntegration.ts lines 133-152):
map a status symbol or type string to the kanban column key, defaulting to
`TODO`. -/
def mapStatusToType (status : String) : String :=
  let l := toLowerCase status
  if l = " " || l = "todo" then "TODO"
  else if l = "/" || l = "in_progress" || l = "in-progress" then "IN_PROGRESS"
  else if l = "x" || l = "done" then "DONE"
  else if l = "-" || l = "cancelled" then "CANCELLED"
  else "TODO"

/-- The Task Record fields consumed by the mutation engine (description,
owning path, line-number hint, current status type). -/
structure Task where
  description : List Char
  path : String
  lineNumber : Nat
  statusType : String
deriving DecidableEq, Repr

/-- Outcome of one `updateTaskStatus` run on a loaded resource text.  Only the
`write` constructor performs a storage write (`vault.modify`); `notFound`
models the thrown `Could not find task ... in file` error (TaskLineNotFound)
and `noChange` the `updatedLine === originalLine` skip. -/
inductive MoveResult where
  | notFound
  | noChange
  | write (newContent : List Char)
deriving DecidableEq, Repr

/-- The content a `MoveResult` persists, if any. -/
def MoveResult.writesContent : MoveResult → Option (List Char)
  | .write c => some c
  | _ => none

/-- The pure core of `updateTaskStatus` (src/src/integration/TasksIntegration.ts
lines 154-227) acting on the loaded file content: resolve the marker, split
into lines, locate the task line by description search, rewrite the marker and
reassemble, skipping the write when the line is unchanged.  The line-number
hint `task.lineNumber` is never consulted, exactly as in the source. -/
def applyMoveCore (statuses : List StatusDescriptor) (content : List Char)
    (task : Task) (newStatus : String) : MoveResult :=
  match findTaskLine task.description (content.splitOn '\n') 0 with
  | none => .notFound
  | some i =>
    if updateTaskLineStatus ((content.splitOn '\n').getD i [])
        (getStatusSymbol statuses newStatus).data = (content.splitOn '\n').getD i []
    then .noChange
    else .write (List.intercalate ['\n'] ((content.splitOn '\n').set i
      (updateTaskLineStatus ((content.splitOn '\n').getD i [])
        (getStatusSymbol statuses newStatus).data)))

/-- `mapColumnToStatusType` fallback path (src/src/KanbanQueryProcessor.ts
lines 1053-1090): find a configured status by name, type or symbol and return
`matchingStatus.type || matchingStatus.name` (JS `||` on the empty string);
otherwise map the four display/default names, defaulting to the column name
itself. -/
def mapColumnToStatusType (statuses : List StatusDescriptor) (columnName : String) : String :=
  match statuses.find? (fun s => s.name == columnName || s.type == columnName || s.symbol == columnName) with
  | some s => if s.type ≠ "" then s.type else s.name
  | none =>
    if columnName = "TODO" || columnName = "To Do" then "TODO"
    else if columnName = "IN_PROGRESS" || columnName = "In Progress" then "IN_PROGRESS"
    else if columnName = "DONE" || columnName = "Done" then "DONE"
    else if columnName = "CANCELLED" || columnName = "Cancelled" then "CANCELLED"
    else columnName

/-- The fields of the drag payload JSON built by `setupCardDragHandlers`
(src/src/KanbanQueryProcessor.ts lines 935-962). -/
structure DragData where
  taskId : List Char
  originalColumn : String
  taskPath : String
  taskLineNumber : Nat
  taskDescription : List Char
deriving DecidableEq, Repr

/-- What a drop handler decides to do: either nothing at all, or one
`updateTaskStatus(task, targetStatusType)` invocation built from the listed
fields. -/
inductive DropAction where
  | ignored
  | move (desc : List Char) (path : String) (lineNumber : Nat) (targetStatusType : String)
deriving DecidableEq, Repr

/-- The decision logic of the column drop handler `setupDropZone`
(src/src/KanbanQueryProcessor.ts lines 977-1051): return early when the drop lands
on the original column, when path or line number are JS-falsy, or when the
resolved target status type is falsy; otherwise invoke the mutation. -/
def dropZoneAction (statuses : List StatusDescriptor) (dragData : DragData)
    (targetColumn : String) : DropAction :=
  if dragData.originalColumn = targetColumn then .ignored
  else if dragData.taskPath = "" || dragData.taskLineNumber = 0 then .ignored
  else
    let targetStatusType := mapColumnToStatusType statuses targetColumn
    if targetStatusType ≠ "" then
      .move dragData.taskDescription dragData.taskPath dragData.taskLineNumber targetStatusType
    else .ignored

/-- Decimal digit character. -/
def digitChar (n : Nat) : Char := Char.ofNat (48 + n)

/-- Decimal rendering of a number as JS template interpolation produces it. -/
def natChars (n : Nat) : List Char :=
  if _h : n < 10 then [digitChar n]
  else natChars (n / 10) ++ [digitChar (n % 10)]
termination_by n
decreasing_by exact Nat.div_lt_self (by omega) (by omega)

/-- The drag identifier built at drag start (src/src/KanbanQueryProcessor.ts
line 948): `${taskPath || 'unknown'}:${taskLineNumber || 0}:${task.description.slice(0, 50) || 'no-desc'}`. -/
def uniqueId (path : String) (lineNumber : Nat) (desc : List Char) : List Char :=
  (if path = "" then "unknown".data else path.data) ++
  ':' :: natChars lineNumber ++
  ':' :: (if desc.take 50 = [] then "no-desc".data else desc.take 50)

/-- Description reconstruction of the swim-lane drop handler
(src/src/KanbanQueryProcessor.ts lines 530-533):
`const [taskPath, taskLineNumberStr, ...descParts] = taskId.split(':');
const taskDescription = descParts.join(':')`. -/
def swimLaneDropDescription (taskId : List Char) : List Char :=
  List.intercalate [':'] ((taskId.splitOn ':').drop 2)

/-! ### Board materializer (src/unnamed/part_002)

JS objects with string keys preserve insertion order for non-numeric keys;
they are modelled as association lists with insertion-ordered unique keys. -/

/-- JS `key in obj` / truthiness of `obj[key]` for object-valued entries (an
array value, even empty, is truthy; absence is `undefined`, falsy). -/
def odHas (m : List (String × α)) (k : String) : Bool :=
  m.any (fun p => p.1 == k)

/-- JS `obj[key] ?? d` read on an insertion-ordered object. -/
def odGetD (m : List (String × α)) (k : String) (d : α) : α :=
  match m.find? (fun p => p.1 == k) with
  | some p => p.2
  | none => d

/-- JS `obj[key] = v` on an insertion-ordered object: overwrite in place or
append. -/
def odSet (m : List (String × α)) (k : String) (v : α) : List (String × α) :=
  if odHas m k then m.map (fun p => if p.1 == k then (k, v) else p)
  else m ++ [(k, v)]

/-- The shared loop body of `createOrderedGroupsWithEmptyColumns`
(src/unnamed/part_002 lines 244-263) and of the per-lane part of
`createOrderedSwimLanes` (lines 222-236): first one entry per ordered status
name (`populated[name] || []`), then append the populated groups whose key is
not yet present (`if (!orderedGroups[groupName])`: an already-present empty
array is truthy, so only genuinely new keys are appended). -/
def fillColumns (orderedStatusNames : List String)
    (populated : List (String × List Task)) : List (String × List Task) :=
  let base := orderedStatusNames.foldl
    (fun acc statusName => odSet acc statusName (odGetD populated statusName [])) []
  populated.foldl
    (fun acc p => if odHas acc p.1 then acc else odSet acc p.1 p.2) base

/-- `createOrderedGroupsWithEmptyColumns` (src/unnamed/part_002 lines
244-263), with the output of `getOrderedStatusNames()` passed explicitly. -/
def createOrderedGroupsWithEmptyColumns (orderedStatusNames : List String)
    (populatedGroups : List (String × List Task)) : List (String × List Task) :=
  fillColumns orderedStatusNames populatedGroups

/-- The default comparator of JS `Array.prototype.sort`: lexicographic
comparison of code units. -/
def strLeChars : List Char → List Char → Bool
  | [], _ => true
  | _ :: _, [] => false
  | a :: as, b :: bs => if a < b then true else if b < a then false else strLeChars as bs

/-- Stable sort of the swim-lane names, as `Object.keys(swimLanes).sort()`
produces them. -/
def sortedInsert (a : String) : List String → List String
  | [] => [a]
  | b :: bs => if strLeChars a.data b.data then a :: b :: bs else b :: sortedInsert a bs

def sortStrings : List String → List String
  | [] => []
  | a :: as => sortedInsert a (sortStrings as)

/-- `createOrderedSwimLanes` (src/unnamed/part_002 lines 214-239): sort the
swim-lane names, then give each lane one column per ordered status name plus
that lane's own additional columns. -/
def createOrderedSwimLanes (orderedStatusNames : List String)
    (swimLanes : List (String × List (String × List Task))) :
    List (String × List (String × List Task)) :=
  (sortStrings (swimLanes.map Prod.fst)).map
    (fun name => (name, fillColumns orderedStatusNames (odGetD swimLanes name [])))

/-- The catch-branch fallback of `getOrderedStatusNames`
(src/unnamed/part_002 line 345), the resolved order when the external status
settings are unavailable (the "ordering policy default" of the scenarios). -/
def orderedStatusNamesFallback : List String :=
  ["Todo", "In Progress", "Done", "Cancelled"]

/-! ### Refresh coordinator (src/src/KanbanQueryProcessor.ts lines 237-278)

`setTimeout`/`clearTimeout` are modelled by an explicit pending deadline: a
scheduled refresh fires once the clock reaches its deadline unless a newer
`debouncedRender` call cancelled it first.  `renders` counts completed
re-materialization (`render()`) calls. -/

structure RefreshState where
  pendingDeadline : Option Nat
  renders : Nat
deriving DecidableEq, Repr

/-- `debouncedRender(delay)` (lines 270-278): cancel any pending timeout and
schedule a render at `now + delay`. -/
def debouncedRender (s : RefreshState) (now delay : Nat) : RefreshState :=
  { s with pendingDeadline := some (now + delay) }

/-- The vault `modify` listener (lines 240-246): when no mutation is in
flight, debounce a refresh with a 300 ms delay. -/
def modifyEventStep (s : RefreshState) (isUpdating : Bool) (now : Nat) : RefreshState :=
  if isUpdating then s else debouncedRender s now 300

/-- Fire the pending timer if its deadline has been reached by time `now`. -/
def fireDue (s : RefreshState) (now : Nat) : RefreshState :=
  match s.pendingDeadline with
  | some d => if d ≤ now then { pendingDeadline := none, renders := s.renders + 1 } else s
  | none => s

/-- Run a sequence of modification notifications at the given (nondecreasing)
times with no mutation in flight, letting due timers fire before each event
and letting any remaining pending timer fire at the end. -/
def runNotifications (s : RefreshState) : List Nat → RefreshState
  | [] =>
    match s.pendingDeadline with
    | some _ => { pendingDeadline := none, renders := s.renders + 1 }
    | none => s
  | t :: ts => runNotifications (modifyEventStep (fireDue s t) false t) ts

/-! ### Lemmas about the line search loop -/

theorem findTaskLine_shift (desc : List Char) (lines : List (List Char)) (k : Nat) :
    findTaskLine desc lines (k + 1) = (findTaskLine desc lines k).map (· + 1) := by
  induction lines generalizing k with
  | nil => rfl
  | cons l ls ih =>
    by_cases h : taskLineHit desc l
    · simp [findTaskLine, h]
    · simp [findTaskLine, h, ih]

theorem findTaskLine_spec (desc : List Char) (lines : List (List Char)) (i : Nat)
    (h : findTaskLine desc lines 0 = some i) :
    i < lines.length ∧ taskLineHit desc (lines.getD i []) = true ∧
      ∀ j < i, taskLineHit desc (lines.getD j []) = false := by
  induction lines generalizing i with
  | nil => cases h
  | cons l ls ih =>
    by_cases hl : taskLineHit desc l
    · simp only [findTaskLine, if_pos hl, Option.some.injEq] at h
      subst h
      exact ⟨by simp, by simpa using hl, by omega⟩
    · simp only [findTaskLine, if_neg hl] at h
      rw [findTaskLine_shift] at h
      cases hfs : findTaskLine desc ls 0 with
      | none => rw [hfs] at h; cases h
      | some i0 =>
        rw [hfs] at h
        simp only [Option.map_some', Option.some.injEq] at h
        subst h
        obtain ⟨hlt, hhit, hbefore⟩ := ih i0 hfs
        refine ⟨by simpa using Nat.succ_lt_succ hlt, by simpa using hhit, ?_⟩
        intro j hj
        cases j with
        | zero => simpa using hl
        | succ j0 =>
          rw [List.getD_cons_succ]
          exact hbefore j0 (by omega)

theorem findTaskLine_eq_none (desc : List Char) (lines : List (List Char)) (k : Nat)
    (h : ∀ l ∈ lines, taskLineHit desc l = false) :
    findTaskLine desc lines k = none := by
  induction lines generalizing k with
  | nil => rfl
  | cons l ls ih =>
    simp only [findTaskLine, h l (List.mem_cons_self l ls)]
    exact ih (k + 1) (fun x hx => h x (List.mem_cons_of_mem l hx))

/-! ### Claim theorems: status mapper -/

/-- Claim C4 (counterexample): contrary to the claim that an unknown column
key is mapped to itself as a best-effort marker, `getStatusSymbol` returns
`' '` for the unknown key `"OTHER"` on the fallback path. -/
theorem getStatusSymbol_unknown_key_not_identity_cex :
    getStatusSymbol [] "OTHER" = " " ∧ getStatusSymbol [] "OTHER" ≠ "OTHER" := by
  constructor <;> decide

/-- Claim C4 (amended): when the status configuration contains no descriptor
matching the column key (in particular when it is empty), `getStatusSymbol`
returns `' '` for Todo, `'/'` for In-Progress, `'x'` for Done, `'-'` for
Cancelled, and `' '` (the Todo marker, not the key itself) for any other
column key. -/
theorem getStatusSymbol_fallback_table (statuses : List StatusDescriptor) (k : String)
    (hnm : statuses.find?
      (fun s => s.type == k || s.name == k || s.symbol == k) = none) :
    getStatusSymbol statuses k =
      if k = "TODO" then " "
      else if k = "IN_PROGRESS" then "/"
      else if k = "DONE" then "x"
      else if k = "CANCELLED" then "-"
      else " " := by
  unfold getStatusSymbol
  rw [hnm]

theorem getStatusSymbol_fallback_table_witness :
    getStatusSymbol [] "DONE" = "x" ∧ getStatusSymbol [] "SOMETHING_ELSE" = " " := by
  have h1 := getStatusSymbol_fallback_table [] "DONE" rfl
  have h2 := getStatusSymbol_fallback_table [] "SOMETHING_ELSE" rfl
  exact ⟨h1.trans (by decide), h2.trans (by decide)⟩

/-- Claim C7: on the fallback path (empty status configuration) the marker
to column-key map and the column-key to marker map are mutually inverse over
the four-entry table. -/
theorem status_mapper_fallback_roundtrip :
    (getStatusSymbol [] (mapStatusToType " ") = " " ∧
     getStatusSymbol [] (mapStatusToType "/") = "/" ∧
     getStatusSymbol [] (mapStatusToType "x") = "x" ∧
     getStatusSymbol [] (mapStatusToType "-") = "-") ∧
    (mapStatusToType (getStatusSymbol [] "TODO") = "TODO" ∧
     mapStatusToType (getStatusSymbol [] "IN_PROGRESS") = "IN_PROGRESS" ∧
     mapStatusToType (getStatusSymbol [] "DONE") = "DONE" ∧
     mapStatusToType (getStatusSymbol [] "CANCELLED") = "CANCELLED") := by
  refine ⟨⟨?_, ?_, ?_, ?_⟩, ⟨?_, ?_, ?_, ?_⟩⟩ <;> decide

/-! ### Claim theorems: malformed lines -/

/-- Claim C8: a line that does not match the checkbox-task rewrite pattern is
returned unchanged by `updateTaskLineStatus`, for every target marker (and
the function is total, so no exception is possible). -/
theorem updateTaskLineStatus_nonmatching_unchanged (line sym : List Char)
    (h : matchTaskLine line = none) :
    updateTaskLineStatus line sym = line := by
  unfold updateTaskLineStatus
  rw [h]

theorem updateTaskLineStatus_nonmatching_unchanged_witness :
    matchTaskLine "not a task line".data = none ∧
    updateTaskLineStatus "not a task line".data "x".data = "not a task line".data :=
  ⟨by decide, updateTaskLineStatus_nonmatching_unchanged _ _ (by decide)⟩

/-! ### Claim theorems: debounce -/

/-- Claim C9: two modification notifications within the 300 ms debounce
window while no mutation is in flight produce exactly one re-materialization:
the second notification cancels the deadline scheduled by the first
(`clearTimeout`), and only the rescheduled timer fires. -/
theorem debounce_two_notifications_one_render (t1 t2 : Nat)
    (h1 : t1 ≤ t2) (h2 : t2 < t1 + 300) :
    (runNotifications ⟨none, 0⟩ [t1, t2]).renders = 1 := by
  have hlt : ¬ (t1 + 300 ≤ t2) := by omega
  simp [runNotifications, fireDue, modifyEventStep, debouncedRender, hlt]

theorem debounce_two_notifications_one_render_witness :
    (runNotifications ⟨none, 0⟩ [0, 100]).renders = 1 :=
  debounce_two_notifications_one_render 0 100 (by omega) (by omega)

/-! ### Claim theorems: no-op moves -/

/-- Claim C6: a drop on the task's current column is ignored by the drop
handler before any mutation is attempted, and when the located line rewritten
with the target marker equals the original line, `updateTaskStatus` completes
with `noChange`, performing no storage write. -/
theorem move_same_column_or_same_line_no_write (statuses : List StatusDescriptor)
    (dragData : DragData) (targetColumn : String)
    (content : List Char) (task : Task) (newStatus : String) :
    (dragData.originalColumn = targetColumn →
      dropZoneAction statuses dragData targetColumn = .ignored) ∧
    (∀ i, findTaskLine task.description (content.splitOn '\n') 0 = some i →
      updateTaskLineStatus ((content.splitOn '\n').getD i [])
          (getStatusSymbol statuses newStatus).data = (content.splitOn '\n').getD i [] →
      applyMoveCore statuses content task newStatus = .noChange ∧
      (applyMoveCore statuses content task newStatus).writesContent = none) := by
  constructor
  · intro h
    unfold dropZoneAction
    rw [if_pos h]
  · intro i hfind heq
    have hres : applyMoveCore statuses content task newStatus = .noChange := by
      unfold applyMoveCore
      rw [hfind]
      exact if_pos heq
    exact ⟨hres, by rw [hres]; rfl⟩

theorem move_same_column_or_same_line_no_write_witness :
    dropZoneAction [] ⟨"id".data, "DONE", "N.md", 3, "a".data⟩ "DONE" = .ignored ∧
    applyMoveCore [] "- [x] a".data ⟨"a".data, "N.md", 1, "TODO"⟩ "DONE" = .noChange := by
  have h := move_same_column_or_same_line_no_write []
    ⟨"id".data, "DONE", "N.md", 3, "a".data⟩ "DONE"
    "- [x] a".data ⟨"a".data, "N.md", 1, "TODO"⟩ "DONE"
  exact ⟨h.1 rfl, (h.2 0 (by decide) (by decide)).1⟩

/-! ### Claim theorems: content-addressed line lookup -/

/-- Claim C3: `updateTaskStatus` ignores the Task Record's line-number hint
(the result is identical for any two hints); when it locates a line it is the
smallest index passing the checkbox-pattern-and-description test; and when no
line qualifies it fails with the task-line-not-found error and performs no
write. -/
theorem updateTaskStatus_locates_first_match_or_fails
    (statuses : List StatusDescriptor) (content : List Char)
    (desc : List Char) (path : String) (n₁ n₂ : Nat) (stt newStatus : String) :
    applyMoveCore statuses content ⟨desc, path, n₁, stt⟩ newStatus
      = applyMoveCore statuses content ⟨desc, path, n₂, stt⟩ newStatus ∧
    (∀ i, findTaskLine desc (content.splitOn '\n') 0 = some i →
      i < (content.splitOn '\n').length ∧
      taskLineHit desc ((content.splitOn '\n').getD i []) = true ∧
      ∀ j < i, taskLineHit desc ((content.splitOn '\n').getD j []) = false) ∧
    ((∀ l ∈ content.splitOn '\n', taskLineHit desc l = false) →
      applyMoveCore statuses content ⟨desc, path, n₁, stt⟩ newStatus = .notFound ∧
      (applyMoveCore statuses content ⟨desc, path, n₁, stt⟩ newStatus).writesContent
        = none) := by
  refine ⟨rfl, fun i h => findTaskLine_spec desc _ i h, fun h => ?_⟩
  have hnone := findTaskLine_eq_none desc (content.splitOn '\n') 0 h
  have hres : applyMoveCore statuses content ⟨desc, path, n₁, stt⟩ newStatus = .notFound := by
    unfold applyMoveCore
    dsimp only
    rw [hnone]
  exact ⟨hres, by rw [hres]; rfl⟩

theorem updateTaskStatus_locates_first_match_or_fails_witness :
    applyMoveCore [] "- [ ] tea".data ⟨"milk".data, "N.md", 1, "TODO"⟩ "DONE"
      = applyMoveCore [] "- [ ] tea".data ⟨"milk".data, "N.md", 5, "TODO"⟩ "DONE" ∧
    applyMoveCore [] "- [ ] tea".data ⟨"milk".data, "N.md", 1, "TODO"⟩ "DONE"
      = .notFound := by
  have h := updateTaskStatus_locates_first_match_or_fails []
    "- [ ] tea".data "milk".data "N.md" 1 5 "TODO" "DONE"
  exact ⟨h.1, (h.2.2 (by decide)).1⟩

/-! ### Lemmas about the drag identifier -/

theorem digitChar_beq_colon (d : Nat) (hd : d < 10) : (digitChar d == ':') = false := by
  interval_cases d <;> decide

theorem natChars_no_colon (n : Nat) : ∀ c ∈ natChars n, (c == ':') = false := by
  induction n using Nat.strong_induction_on with
  | _ n ih =>
    by_cases h : n < 10
    · rw [natChars, dif_pos h]
      intro c hc
      rw [List.mem_singleton] at hc
      subst hc
      exact digitChar_beq_colon n h
    · rw [natChars, dif_neg h]
      intro c hc
      rcases List.mem_append.mp hc with hc | hc
      · exact ih (n / 10) (Nat.div_lt_self (by omega) (by omega)) c hc
      · rw [List.mem_singleton] at hc
        subst hc
        exact digitChar_beq_colon (n % 10) (Nat.mod_lt n (by omega))

theorem splitOn_colon_sandwich (xs ys zs : List Char)
    (hx : ∀ c ∈ xs, (c == ':') = false) (hy : ∀ c ∈ ys, (c == ':') = false) :
    (xs ++ ':' :: ys ++ ':' :: zs).splitOn ':' = xs :: ys :: zs.splitOn ':' := by
  have hdef : ∀ l : List Char, l.splitOn ':' = l.splitOnP (fun c => c == ':') :=
    fun l => rfl
  have hassoc : xs ++ ':' :: ys ++ ':' :: zs = xs ++ ':' :: (ys ++ ':' :: zs) := by
    rw [List.append_assoc, List.cons_append]
  rw [hassoc, hdef, hdef,
    List.splitOnP_first _ xs (fun c hc => by simp [hx c hc]) ':' (by decide),
    List.splitOnP_first _ ys (fun c hc => by simp [hy c hc]) ':' (by decide)]

/-- Claim C10: the drag payload identifier embeds only the first 50 characters
of the description; the swim-lane drop handler reconstructs the description
from it, so for a description longer than 50 characters (owned by a path
without ':'), the content search of the move runs on the 50-character prefix,
not the full description. -/
theorem swimLane_drag_uses_description_prefix
    (statuses : List StatusDescriptor) (content : List Char) (path : String)
    (dragLineNumber moveLineNumber : Nat) (desc : List Char) (stt newStatus : String)
    (hp : ':' ∉ path.data) (hlen : 50 < desc.length) :
    swimLaneDropDescription (uniqueId path dragLineNumber desc) = desc.take 50 ∧
    desc.take 50 ≠ desc ∧
    applyMoveCore statuses content
        ⟨swimLaneDropDescription (uniqueId path dragLineNumber desc),
         path, moveLineNumber, stt⟩ newStatus
      = applyMoveCore statuses content
        ⟨desc.take 50, path, moveLineNumber, stt⟩ newStatus := by
  have hd50 : ¬ (desc.take 50 = []) := by
    intro h
    have h2 := congrArg List.length h
    rw [List.length_take, List.length_nil] at h2
    omega
  have hpc : ∀ c ∈ (if path = "" then "unknown".data else path.data),
      (c == ':') = false := by
    by_cases hpath : path = ""
    · rw [if_pos hpath]; decide
    · rw [if_neg hpath]
      intro c hc
      rw [beq_eq_false_iff_ne]
      intro hceq
      subst hceq
      exact hp hc
  have hrecon : swimLaneDropDescription (uniqueId path dragLineNumber desc)
      = desc.take 50 := by
    unfold uniqueId swimLaneDropDescription
    rw [if_neg hd50,
      splitOn_colon_sandwich _ _ _ hpc (natChars_no_colon dragLineNumber)]
    simp only [List.drop_succ_cons, List.drop_zero]
    exact List.intercalate_splitOn _ ':'
  have hneq : desc.take 50 ≠ desc := by
    intro h
    have := congrArg List.length h
    rw [List.length_take] at this
    omega
  exact ⟨hrecon, hneq, by rw [hrecon]⟩

theorem swimLane_drag_uses_description_prefix_witness :
    swimLaneDropDescription (uniqueId "N.md" 7
        "0123456789012345678901234567890123456789012345678901234".data)
      = "0123456789012345678901234567890123456789012345678901234".data.take 50 ∧
    "0123456789012345678901234567890123456789012345678901234".data.take 50
      ≠ "0123456789012345678901234567890123456789012345678901234".data ∧
    applyMoveCore [] "- [ ] x".data
        ⟨swimLaneDropDescription (uniqueId "N.md" 7
          "0123456789012345678901234567890123456789012345678901234".data),
         "N.md", 9, "TODO"⟩ "DONE"
      = applyMoveCore [] "- [ ] x".data
        ⟨"0123456789012345678901234567890123456789012345678901234".data.take 50,
         "N.md", 9, "TODO"⟩ "DONE" :=
  swimLane_drag_uses_description_prefix [] "- [ ] x".data "N.md" 7 9
    "0123456789012345678901234567890123456789012345678901234".data "TODO" "DONE"
    (by decide) (by decide)

/-! ### Lemmas about the ordered-object operations -/

theorem odSet_of_not_has {α : Type} (m : List (String × α)) (k : String) (v : α)
    (h : odHas m k = false) : odSet m k v = m ++ [(k, v)] := by
  simp [odSet, h]

theorem fillColumns_base (populated : List (String × List Task)) :
    ∀ (ks : List String) (acc : List (String × List Task)),
    ks.Nodup → (∀ k ∈ ks, odHas acc k = false) →
    ks.foldl (fun acc statusName => odSet acc statusName (odGetD populated statusName [])) acc
      = acc ++ ks.map (fun k => (k, odGetD populated k [])) := by
  intro ks
  induction ks with
  | nil => intro acc _ _; simp
  | cons k ks ih =>
    intro acc hnd hhas
    rw [List.foldl_cons, odSet_of_not_has _ _ _ (hhas k (List.mem_cons_self k ks)),
      ih (acc ++ [(k, odGetD populated k [])]) (List.nodup_cons.mp hnd).2 ?_]
    · simp
    · intro k2 hk2
      have h1 : odHas acc k2 = false := hhas k2 (List.mem_cons_of_mem k hk2)
      have h2 : ¬ (k = k2) := by
        intro he
        subst he
        exact (List.nodup_cons.mp hnd).1 hk2
      have h1' := h1
      simp [odHas, List.any_append] at h1' ⊢
      exact ⟨h1', h2⟩

theorem fillColumns_extras :
    ∀ (ps : List (String × List Task)) (acc : List (String × List Task)),
    (ps.map Prod.fst).Nodup →
    ps.foldl (fun acc p => if odHas acc p.1 then acc else odSet acc p.1 p.2) acc
      = acc ++ ps.filter (fun p => !odHas acc p.1) := by
  intro ps
  induction ps with
  | nil => intro acc _; simp
  | cons p ps ih =>
    intro acc hnd
    rw [List.foldl_cons]
    by_cases hh : odHas acc p.1
    · rw [if_pos hh, ih acc (by simpa using (List.nodup_cons.mp (by simpa using hnd)).2),
        List.filter_cons]
      simp [hh]
    · have hhf : odHas acc p.1 = false := by simpa using hh
      rw [if_neg hh, odSet_of_not_has _ _ _ hhf]
      have hpp : (p.1, p.2) = p := rfl
      rw [hpp, ih (acc ++ [p]) (by simpa using (List.nodup_cons.mp (by simpa using hnd)).2)]
      have hkey : p.1 ∉ ps.map Prod.fst := (List.nodup_cons.mp (by simpa using hnd)).1
      have hfil : ps.filter (fun q => !odHas (acc ++ [p]) q.1)
          = ps.filter (fun q => !odHas acc q.1) := by
        apply List.filter_congr
        intro q hq
        have hne : ¬ (p.1 = q.1) := by
          intro he
          exact hkey (he ▸ List.mem_map_of_mem Prod.fst hq)
        have hb : (p.1 == q.1) = false := by
          rw [beq_eq_false_iff_ne]
          exact hne
        simp [odHas, List.any_append, hb]
      rw [hfil, List.filter_cons, if_pos (by simp [hhf]), List.append_assoc]
      rfl

theorem odHas_mapped (ordered : List String) (f : String → List Task) (key : String) :
    odHas (ordered.map (fun k => (k, f k))) key = decide (key ∈ ordered) := by
  induction ordered with
  | nil => simp [odHas]
  | cons k ks ih =>
    simp only [odHas, List.map_cons, List.any_cons] at ih ⊢
    rw [ih]
    rcases eq_or_ne k key with hk | hk
    · subst hk
      simp
    · have h1 : (k == key) = false := by rwa [beq_eq_false_iff_ne]
      have h2 : decide (key ∈ k :: ks) = decide (key ∈ ks) := by
        simp [List.mem_cons, Ne.symm hk]
      rw [h1, h2, Bool.false_or]

/-- The characterization shared by the two materializer functions: the output
is one entry per ordered status name (tasks looked up in the populated groups,
empty when absent), followed by the populated groups whose key is not among
the ordered names, in their discovery order. -/
theorem fillColumns_eq (ordered : List String) (populated : List (String × List Task))
    (hord : ordered.Nodup) (hpop : (populated.map Prod.fst).Nodup) :
    fillColumns ordered populated
      = ordered.map (fun k => (k, odGetD populated k []))
        ++ populated.filter (fun p => decide (p.1 ∉ ordered)) := by
  unfold fillColumns
  rw [fillColumns_base populated ordered [] hord (by intro k _; rfl),
    List.nil_append, fillColumns_extras populated _ hpop]
  congr 1
  apply List.filter_congr
  intro p _
  rw [odHas_mapped]
  by_cases hm : p.1 ∈ ordered <;> simp [hm]

/-! ### Claim theorems: board materializer -/

/-- Claim C5: for single grouping, the materialized board is exactly one
column per resolved key - the ordered status names first (with an empty task
list where no tasks fall in a column), then the remaining populated keys -
with no duplicate and no extra column.  The scenario of the claim is the
witness below. -/
theorem singleGrouping_columns_exactly_resolved_keys
    (ordered : List String) (populated : List (String × List Task))
    (hord : ordered.Nodup) (hpop : (populated.map Prod.fst).Nodup) :
    createOrderedGroupsWithEmptyColumns ordered populated
      = ordered.map (fun k => (k, odGetD populated k []))
        ++ populated.filter (fun p => decide (p.1 ∉ ordered)) ∧
    ((createOrderedGroupsWithEmptyColumns ordered populated).map Prod.fst).Nodup := by
  have heq := fillColumns_eq ordered populated hord hpop
  refine ⟨heq, ?_⟩
  rw [show createOrderedGroupsWithEmptyColumns ordered populated
    = fillColumns ordered populated from rfl, heq, List.map_append]
  have hmap : (ordered.map (fun k => (k, odGetD populated k []))).map Prod.fst
      = ordered := by
    rw [List.map_map]
    exact List.map_id _
  rw [hmap]
  rw [List.nodup_append]
  refine ⟨hord, ?_, ?_⟩
  · exact ((List.filter_sublist _).map Prod.fst).nodup hpop
  · intro k hk hk2
    obtain ⟨p, hp, rfl⟩ := List.mem_map.mp hk2
    have := (List.mem_filter.mp hp).2
    simp at this
    exact this hk

theorem singleGrouping_columns_exactly_resolved_keys_witness :
    createOrderedGroupsWithEmptyColumns orderedStatusNamesFallback
        [("Todo", [⟨['A'], "A.md", 1, "Todo"⟩]), ("Done", [])]
      = [("Todo", [⟨['A'], "A.md", 1, "Todo"⟩]), ("In Progress", []),
         ("Done", []), ("Cancelled", [])] := by
  have h := singleGrouping_columns_exactly_resolved_keys orderedStatusNamesFallback
    [("Todo", [⟨['A'], "A.md", 1, "Todo"⟩]), ("Done", [])] (by decide) (by decide)
  exact h.1.trans (by decide)

/-- Claim C2 (counterexample): the swim lanes of one board need not expose
the same column keys: a lane owning a column key outside the resolved status
names gets that key appended to its own column sequence only. -/
theorem swimLanes_not_structurally_identical_cex :
    (odGetD (createOrderedSwimLanes orderedStatusNamesFallback
        [("A", [("Weird", [⟨['w'], "A.md", 1, "Weird"⟩])]),
         ("B", [("Todo", [⟨['t'], "B.md", 1, "Todo"⟩])])]) "A" []).map Prod.fst
      = ["Todo", "In Progress", "Done", "Cancelled", "Weird"] ∧
    (odGetD (createOrderedSwimLanes orderedStatusNamesFallback
        [("A", [("Weird", [⟨['w'], "A.md", 1, "Weird"⟩])]),
         ("B", [("Todo", [⟨['t'], "B.md", 1, "Todo"⟩])])]) "B" []).map Prod.fst
      = ["Todo", "In Progress", "Done", "Cancelled"] ∧
    (odGetD (createOrderedSwimLanes orderedStatusNamesFallback
        [("A", [("Weird", [⟨['w'], "A.md", 1, "Weird"⟩])]),
         ("B", [("Todo", [⟨['t'], "B.md", 1, "Todo"⟩])])]) "A" []).map Prod.fst
      ≠ (odGetD (createOrderedSwimLanes orderedStatusNamesFallback
        [("A", [("Weird", [⟨['w'], "A.md", 1, "Weird"⟩])]),
         ("B", [("Todo", [⟨['t'], "B.md", 1, "Todo"⟩])])]) "B" []).map Prod.fst := by
  refine ⟨?_, ?_, ?_⟩ <;> decide

/-- Claim C2 (amended): the column-key sequence of every lane starts from the
resolved status-name sequence, which is derived once from the status
configuration (not from the union of observed keys); when every observed
column key of every lane lies in that sequence, all lanes expose exactly the
same ordered column keys, with empty task lists where a lane has no tasks. -/
theorem swimLanes_share_ordered_columns_of_observed_subset
    (ordered : List String) (swimLanes : List (String × List (String × List Task)))
    (hord : ordered.Nodup)
    (hlanes : ∀ lane ∈ swimLanes, ((lane.2.map Prod.fst).Nodup ∧
      ∀ k ∈ lane.2.map Prod.fst, k ∈ ordered)) :
    ∀ l ∈ createOrderedSwimLanes ordered swimLanes, l.2.map Prod.fst = ordered := by
  intro l hl
  unfold createOrderedSwimLanes at hl
  obtain ⟨name, _, rfl⟩ := List.mem_map.mp hl
  show (fillColumns ordered (odGetD swimLanes name [])).map Prod.fst = ordered
  cases hf : swimLanes.find? (fun p => p.1 == name) with
  | none =>
    simp only [odGetD, hf]
    rw [fillColumns_eq ordered [] hord (by simp)]
    simp only [List.filter_nil, List.append_nil, List.map_map]
    exact List.map_id _
  | some lane =>
    simp only [odGetD, hf]
    obtain ⟨hnd, hsub⟩ := hlanes lane (List.mem_of_find?_eq_some hf)
    rw [fillColumns_eq ordered lane.2 hord hnd]
    have hfilter : lane.2.filter (fun p => decide (p.1 ∉ ordered)) = [] := by
      rw [List.filter_eq_nil_iff]
      intro p hp
      simp only [decide_eq_true_eq]
      exact fun hno => hno (hsub p.1 (List.mem_map_of_mem Prod.fst hp))
    rw [hfilter, List.append_nil, List.map_map]
    exact List.map_id _

theorem swimLanes_share_ordered_columns_of_observed_subset_witness :
    (fillColumns orderedStatusNamesFallback
        [("Todo", [⟨['a'], "A.md", 1, "Todo"⟩])]).map Prod.fst
      = orderedStatusNamesFallback := by
  have h := swimLanes_share_ordered_columns_of_observed_subset
    orderedStatusNamesFallback
    [("A", [("Todo", [⟨['a'], "A.md", 1, "Todo"⟩])])] (by decide) (by decide)
  exact h ("A", fillColumns orderedStatusNamesFallback
    [("Todo", [⟨['a'], "A.md", 1, "Todo"⟩])]) (by decide)

/-! ### Lemmas for the frame property of the mutation engine -/

theorem all_not_of_mem_splitOnP {α : Type} (p : α → Bool) :
    ∀ (xs : List α), ∀ l ∈ xs.splitOnP p, ∀ a ∈ l, p a = false := by
  intro xs
  induction xs with
  | nil =>
    intro l hl a ha
    rw [List.splitOnP_nil, List.mem_singleton] at hl
    subst hl
    cases ha
  | cons x xs ih =>
    intro l hl a ha
    rw [List.splitOnP_cons] at hl
    by_cases hx : p x
    · rw [if_pos hx] at hl
      rcases List.mem_cons.mp hl with h | h
      · subst h; cases ha
      · exact ih l h a ha
    · rw [if_neg hx] at hl
      cases hsp : xs.splitOnP p with
      | nil => exact absurd hsp (List.splitOnP_ne_nil p xs)
      | cons hd tl =>
        rw [hsp] at hl
        simp only [List.modifyHead] at hl
        rcases List.mem_cons.mp hl with h | h
        · subst h
          rcases List.mem_cons.mp ha with h | h
          · subst h
            simpa using hx
          · exact ih hd (hsp ▸ List.mem_cons_self hd tl) a h
        · exact ih l (hsp ▸ List.mem_cons_of_mem hd h) a ha

theorem splitOn_newline_not_mem (content : List Char) :
    ∀ l ∈ content.splitOn '\n', '\n' ∉ l := by
  intro l hl hn
  have := all_not_of_mem_splitOnP (fun c => c == '\n') content l hl '\n' hn
  simp at this

theorem matchTaskLine_decomp {line g1 mid g2 : List Char}
    (h : matchTaskLine line = some (g1, mid, g2)) :
    ∃ a tail, line = a ++ '[' :: (mid ++ ']' :: tail) ∧
      g1 = a ++ ['['] ∧ g2 = ']' :: tail ∧ ']' ∉ mid := by
  unfold matchTaskLine at h
  split at h
  case _ r2 heq1 =>
    split at h
    case _ r4 heq2 =>
      split at h
      case _ tail heq3 =>
        split at h
        case isTrue =>
          simp only [Option.some.injEq, Prod.mk.injEq] at h
          obtain ⟨hg1, hmid, hg2⟩ := h
          refine ⟨line.takeWhile jsWhitespace ++ '-' :: r2.takeWhile jsWhitespace,
            tail, ?_, ?_, hg2.symm, ?_⟩
          · have e1 : line = line.takeWhile jsWhitespace ++ '-' :: r2 :=
              by rw [← heq1, List.takeWhile_append_dropWhile]
            have e2 : r2 = r2.takeWhile jsWhitespace ++ '[' :: r4 :=
              by rw [← heq2, List.takeWhile_append_dropWhile]
            have e3 : r4 = mid ++ ']' :: tail := by
              rw [← hmid, ← heq3, List.takeWhile_append_dropWhile]
            conv_lhs => rw [e1, e2, e3]
            simp [List.append_assoc]
          · rw [← hg1]
          · intro hc
            have := List.mem_takeWhile_imp (hmid ▸ hc)
            simp at this
        case isFalse => cases h
      case _ hne => cases h
    case _ hne => cases h
  case _ hne => cases h

theorem updateTaskLineStatus_eq_of_match {line g1 mid g2 : List Char}
    (sym : List Char) (h : matchTaskLine line = some (g1, mid, g2)) :
    updateTaskLineStatus line sym = g1 ++ sym ++ g2 := by
  unfold updateTaskLineStatus
  rw [h]

theorem updateTaskLineStatus_no_newline {line sym : List Char}
    (hl : '\n' ∉ line) (hs : '\n' ∉ sym) :
    '\n' ∉ updateTaskLineStatus line sym := by
  cases hm : matchTaskLine line with
  | none =>
    unfold updateTaskLineStatus
    rw [hm]
    exact hl
  | some g =>
    obtain ⟨g1, mid, g2⟩ := g
    obtain ⟨a, tail, hline, hg1, hg2, _⟩ := matchTaskLine_decomp hm
    rw [updateTaskLineStatus_eq_of_match sym hm, hg1, hg2]
    subst hline
    simp only [List.mem_append, List.mem_cons, List.not_mem_nil, or_false] at hl
    push_neg at hl
    intro hmem
    simp only [List.mem_append, List.mem_cons, List.not_mem_nil, or_false] at hmem
    rcases hmem with ((h | h) | h) | (h | h)
    · exact hl.1 h
    · exact hl.2.1 h
    · exact hs h
    · exact hl.2.2.2.1 h
    · exact hl.2.2.2.2 h

/-! ### Claim theorem: frame property of applyMove -/

/-- Claim C1: when `updateTaskStatus` locates a task line and performs a
write, the persisted text differs from the loaded text only at the located
line, and that line only inside the bracketed marker segment: the lines other
than line `i` are untouched, and line `i` changes from
`a ++ '[' :: (mid ++ ']' :: tail)` to the same line with `mid` replaced by
the target marker, everything before the `[` and from the `]` onward being
preserved verbatim. -/
theorem applyMove_rewrites_only_marker_segment
    (statuses : List StatusDescriptor) (content : List Char) (task : Task)
    (newStatus : String) (newContent : List Char)
    (hσ : '\n' ∉ (getStatusSymbol statuses newStatus).data)
    (hw : applyMoveCore statuses content task newStatus = .write newContent) :
    ∃ i a mid tail,
      findTaskLine task.description (content.splitOn '\n') 0 = some i ∧
      (content.splitOn '\n').getD i [] = a ++ '[' :: (mid ++ ']' :: tail) ∧
      ']' ∉ mid ∧
      (newContent.splitOn '\n').length = (content.splitOn '\n').length ∧
      (∀ j, j ≠ i → (newContent.splitOn '\n')[j]? = (content.splitOn '\n')[j]?) ∧
      (newContent.splitOn '\n')[i]? =
        some (a ++ '[' ::
          ((getStatusSymbol statuses newStatus).data ++ ']' :: tail)) := by
  unfold applyMoveCore at hw
  cases hfind : findTaskLine task.description (content.splitOn '\n') 0 with
  | none =>
    rw [hfind] at hw
    cases hw
  | some i =>
    simp only [hfind] at hw
    by_cases hne : updateTaskLineStatus ((content.splitOn '\n').getD i [])
        (getStatusSymbol statuses newStatus).data = (content.splitOn '\n').getD i []
    · rw [if_pos hne] at hw
      cases hw
    · rw [if_neg hne] at hw
      have hnc : newContent = List.intercalate ['\n'] ((content.splitOn '\n').set i
          (updateTaskLineStatus ((content.splitOn '\n').getD i [])
            (getStatusSymbol statuses newStatus).data)) := by
        cases hw
        rfl
      have hlen : i < (content.splitOn '\n').length :=
        (findTaskLine_spec task.description (content.splitOn '\n') i hfind).1
      have horig_mem : (content.splitOn '\n').getD i [] ∈ content.splitOn '\n' := by
        rw [List.getD_eq_getElem _ _ hlen]
        exact List.getElem_mem hlen
      cases hm : matchTaskLine ((content.splitOn '\n').getD i []) with
      | none =>
        exact absurd (by unfold updateTaskLineStatus; rw [hm]) hne
      | some g =>
        obtain ⟨g1, mid, g2⟩ := g
        obtain ⟨a, tail, hline, hg1, hg2, hmid⟩ := matchTaskLine_decomp hm
        have hupd_nonl : '\n' ∉ updateTaskLineStatus ((content.splitOn '\n').getD i [])
            (getStatusSymbol statuses newStatus).data :=
          updateTaskLineStatus_no_newline
            (splitOn_newline_not_mem content _ horig_mem) hσ
        have hsplit : newContent.splitOn '\n' = (content.splitOn '\n').set i
            (updateTaskLineStatus ((content.splitOn '\n').getD i [])
              (getStatusSymbol statuses newStatus).data) := by
          rw [hnc]
          apply List.splitOn_intercalate _ '\n'
          · intro l hl
            rcases List.mem_or_eq_of_mem_set hl with h | h
            · exact splitOn_newline_not_mem content l h
            · subst h
              exact hupd_nonl
          · apply List.ne_nil_of_length_pos
            rw [List.length_set]
            exact List.length_pos.mpr (List.splitOnP_ne_nil _ _)
        have hupd_eq : updateTaskLineStatus ((content.splitOn '\n').getD i [])
            (getStatusSymbol statuses newStatus).data
            = a ++ '[' :: ((getStatusSymbol statuses newStatus).data ++ ']' :: tail) := by
          rw [updateTaskLineStatus_eq_of_match _ hm, hg1, hg2]
          simp [List.append_assoc]
        refine ⟨i, a, mid, tail, rfl, hline, hmid, ?_, ?_, ?_⟩
        · rw [hsplit, List.length_set]
        · intro j hj
          rw [hsplit]
          exact List.getElem?_set_ne (Ne.symm hj)
        · rw [hsplit, List.getElem?_set_self hlen, hupd_eq]

theorem applyMove_rewrites_only_marker_segment_witness :
    applyMoveCore [] "- [ ] Buy milk #errand".data
        ⟨"Buy milk #errand".data, "Notes.md", 1, "TODO"⟩ "DONE"
      = .write "- [x] Buy milk #errand".data ∧
    (∃ i a mid tail,
      findTaskLine "Buy milk #errand".data
          ("- [ ] Buy milk #errand".data.splitOn '\n') 0 = some i ∧
      ("- [ ] Buy milk #errand".data.splitOn '\n').getD i []
        = a ++ '[' :: (mid ++ ']' :: tail) ∧
      ']' ∉ mid ∧
      ("- [x] Buy milk #errand".data.splitOn '\n').length
        = ("- [ ] Buy milk #errand".data.splitOn '\n').length ∧
      (∀ j, j ≠ i → ("- [x] Buy milk #errand".data.splitOn '\n')[j]?
        = ("- [ ] Buy milk #errand".data.splitOn '\n')[j]?) ∧
      ("- [x] Buy milk #errand".data.splitOn '\n')[i]? =
        some (a ++ '[' :: ((getStatusSymbol [] "DONE").data ++ ']' :: tail))) :=
  ⟨by decide,
    applyMove_rewrites_only_marker_segment [] "- [ ] Buy milk #errand".data
      ⟨"Buy milk #errand".data, "Notes.md", 1, "TODO"⟩ "DONE"
      "- [x] Buy milk #errand".data (by decide) (by decide)⟩

end TasksKanban
